import Mathlib

/-!
The ssc-approver client: aggregation, message normalisation, filtering, configuration

A shallow embedding of the parts of the `ssc-approver` command-line client
that carry its data-shape reasoning:

* `models/models.go`   : `Project`, `ProjectVersion`, `Artifact`
* `client/client.go`   : `SSCClient.GetAllArtifactsRequiringApproval`
* `main.go`            : `extractMessages`, the project filter of `listArtifacts`
* `config/config.go`   : `LoadConfig`, `LoadConfigWithOverrides`

Go strings are modelled by Lean strings (sequences of code points), Go `int64`
identifiers by `Int` (they are only copied, never computed with), a Go slice by
a `List` (the nil slice and the empty slice are both `[]`), and a Go `error` by
its message.  Progress lines printed to standard output are not modelled.
-/

namespace SSC

/-! ## Decoded JSON values (`interface{}` after `json.Unmarshal`) -/

/-- A value of Go type `interface{}` as produced by `encoding/json`:
`nil`, `bool`, `float64`, `string`, `[]interface{}` or `map[string]interface{}`.
A `float64` is carried by the text that the `%v` verb prints for it; float
arithmetic itself is never performed by the program.  A map is carried by the
list of its entries, and a key is looked up as the first entry with that key. -/
inductive JValue where
  | null
  | bool (b : Bool)
  | num (shown : String)
  | str (s : String)
  | arr (items : List JValue)
  | obj (fields : List (String × JValue))

/-- Insert a rendered map entry keeping the entries sorted by key
(`fmt` prints maps in key order). -/
def insertField (k : String) (t : String) :
    List (String × String) → List (String × String)
  | [] => [(k, t)]
  | (k2, t2) :: rest =>
    if k.data < k2.data then (k, t) :: (k2, t2) :: rest
    else (k2, t2) :: insertField k t rest

mutual
/-- The verb `%v` of `fmt.Sprintf` applied to a decoded JSON value. -/
def fmtV : JValue → String
  | .null => "<nil>"
  | .bool true => "true"
  | .bool false => "false"
  | .num shown => shown
  | .str s => s
  | .arr items => "[" ++ " ".intercalate (fmtVList items) ++ "]"
  | .obj fields =>
    "map[" ++ " ".intercalate ((fmtVFields fields).map (fun kt => kt.1 ++ ":" ++ kt.2)) ++ "]"
/-- The verb `%v` on each element of a slice. -/
def fmtVList : List JValue → List String
  | [] => []
  | v :: vs => fmtV v :: fmtVList vs
/-- The entries of a map rendered and put in key order. -/
def fmtVFields : List (String × JValue) → List (String × String)
  | [] => []
  | (k, v) :: rest => insertField k (fmtV v) (fmtVFields rest)
end

/-! ## `models/models.go` -/

/-- The Go struct `models.Project`. -/
structure Project where
  ID : Int
  Name : String
  Description : String

/-- The Go struct `models.ProjectVersion`; `Project` is a pointer that may be nil. -/
structure ProjectVersion where
  ID : Int
  Name : String
  Project : Option Project
  ProjectVersionName : String

/-- The Go struct `models.Artifact`.  `Messages` has type `interface{}`: it is
`JValue.null` when the key is absent or the JSON value is `null`.  `UploadDate`
is a nullable timestamp, kept as an instant. -/
structure Artifact where
  ID : Int
  FileName : String
  FileSize : Int
  Status : String
  UploadDate : Option Int
  UploadIP : String
  UserName : String
  ArtifactType : String
  Messages : JValue
  ProcessingMessages : String
  ApprovalRequired : Bool
  ApprovalComment : String
  ProjectVersionID : Int
  ProjectVersion : Option ProjectVersion
  ProjectVersionName : String

/-- The zero value of `models.Artifact`. -/
def Artifact.zero : Artifact :=
  { ID := 0, FileName := "", FileSize := 0, Status := "", UploadDate := none,
    UploadIP := "", UserName := "", ArtifactType := "", Messages := JValue.null,
    ProcessingMessages := "", ApprovalRequired := false, ApprovalComment := "",
    ProjectVersionID := 0, ProjectVersion := none, ProjectVersionName := "" }

/-! ## `main.go`: `extractMessages` -/

/-- The call `strings.Join(elems, sep)`. -/
def Join (elems : List String) (sep : String) : String :=
  sep.intercalate elems

/-- The body of the loop `for _, item := range v` of `extractMessages`
(main.go 242-260): the accumulated `messages` after one more `item`. -/
def extractItem (messages : List String) (item : JValue) : List String :=
  match item with
  | .obj msgMap =>
    let msg := match msgMap.lookup "message" with
      | some m => fmtV m
      | none => ""
    let code := match msgMap.lookup "code" with
      | some c => fmtV c
      | none => ""
    if msg ≠ "" then
      if code ≠ "" then messages ++ ["[" ++ code ++ "] " ++ msg]
      else messages ++ [msg]
    else messages
  | _ => messages

/-- The slice `messages` of `extractMessages` as it stands at line 263,
after the processing messages and the `Messages` field were inspected. -/
def collectMessages (artifact : Artifact) : List String :=
  let messages : List String := []
  let messages :=
    if artifact.ProcessingMessages ≠ "" then messages ++ [artifact.ProcessingMessages]
    else messages
  match artifact.Messages with
  | .str v => if v ≠ "" then messages ++ [v] else messages
  | .arr v => v.foldl extractItem messages
  | _ => messages

/-- The function `extractMessages` of main.go (226-269). -/
def extractMessages (artifact : Artifact) : String :=
  let messages := collectMessages artifact
  if messages.length = 0 then "No processing messages available"
  else Join messages "\n"

/-! ## `client/client.go`: `GetAllArtifactsRequiringApproval` -/

/-- A Go `error`, kept as its message. -/
abbrev Error := String

/-- A read request sent to the remote service by a repository accessor. -/
inductive Request where
  | projectVersions
  | artifacts (projectVersionID : Int)
  deriving DecidableEq

/-- The remote service as the aggregator sees it: the outcome of
`GetAllProjectVersions()` and, for each version id, of `GetArtifacts(id)`. -/
structure Remote where
  GetAllProjectVersions : Except Error (List ProjectVersion)
  GetArtifacts : Int → Except Error (List Artifact)

/-- What a call of the aggregator yields: the two Go return values together
with the requests it made, in the order it made them. -/
structure Outcome where
  artifacts : List Artifact
  err : Option Error
  requests : List Request

/-- The body of the inner loop `for _, artifact := range artifacts`
(client.go 179-191) for the version `pv`. -/
def scanArtifact (pv : ProjectVersion) (artifactsRequiringApproval : List Artifact)
    (artifact : Artifact) : List Artifact :=
  if artifact.Status = "REQUIRE_AUTH" ∨ artifact.Status = "Requires Approval" then
    let artifact := { artifact with ProjectVersionID := pv.ID }
    let projectName := match pv.Project with
      | some project => project.Name
      | none => ""
    let artifact := { artifact with ProjectVersionName := projectName ++ " - " ++ pv.Name }
    artifactsRequiringApproval ++ [artifact]
  else artifactsRequiringApproval

/-- The body of the outer loop `for _, pv := range projectVersions`
(client.go 167-192) on the pair of the accumulated result and the requests made.
The counter `checkedCount` only paces the progress lines and is left out. -/
def scanVersion (c : Remote) (st : List Artifact × List Request) (pv : ProjectVersion) :
    List Artifact × List Request :=
  let requests := st.2 ++ [Request.artifacts pv.ID]
  match c.GetArtifacts pv.ID with
  | .error _ => (st.1, requests)
  | .ok artifacts => (artifacts.foldl (scanArtifact pv) st.1, requests)

/-- The method `SSCClient.GetAllArtifactsRequiringApproval` (client.go 153-195). -/
def GetAllArtifactsRequiringApproval (c : Remote) : Outcome :=
  match c.GetAllProjectVersions with
  | .error err => { artifacts := [], err := some err, requests := [Request.projectVersions] }
  | .ok projectVersions =>
    let st := projectVersions.foldl (scanVersion c) ([], [Request.projectVersions])
    { artifacts := st.1, err := none, requests := st.2 }

/-- What the specification lets one version add to the result: nothing when
its fetch fails, and otherwise its fetched artifacts with one of the two pending
statuses, in fetched order, each carrying the version id and the display label. -/
def versionYield (c : Remote) (pv : ProjectVersion) : List Artifact :=
  match c.GetArtifacts pv.ID with
  | .error _ => []
  | .ok fetched =>
    (fetched.filter fun a => a.Status = "REQUIRE_AUTH" ∨ a.Status = "Requires Approval").map
      fun a => { a with
        ProjectVersionID := pv.ID,
        ProjectVersionName :=
          (match pv.Project with
            | some project => project.Name
            | none => "") ++ " - " ++ pv.Name }

/-- A sample listing: a version with its project and a version without one. -/
def sampleVersions : List ProjectVersion :=
  [ { ID := 1, Name := "v1", Project := some { ID := 10, Name := "Shop", Description := "" },
      ProjectVersionName := "" },
    { ID := 2, Name := "v2", Project := none, ProjectVersionName := "" } ]

/-- Sample artifacts per version id: version 1 has a pending and a processed
artifact, version 2 a pending one in the other spelling. -/
def sampleFetched (projectVersionID : Int) : List Artifact :=
  if projectVersionID = 1 then
    [ { Artifact.zero with ID := 100, Status := "REQUIRE_AUTH", ProjectVersionName := "old" },
      { Artifact.zero with ID := 101, Status := "PROCESSED" } ]
  else if projectVersionID = 2 then
    [ { Artifact.zero with ID := 200, Status := "Requires Approval", ProjectVersionID := 77 } ]
  else []

/-! ## `main.go`: the project filter of `listArtifacts` -/

/-- The function `unicode.ToLower` on one rune: ASCII letters are handled
directly, every other rune goes through the Unicode case table `tbl`. -/
def lowerRune (tbl : Char → Char) (r : Char) : Char :=
  if r.val ≤ 127 then
    if 65 ≤ r.toNat ∧ r.toNat ≤ 90 then Char.ofNat (r.toNat + 32) else r
  else tbl r

/-- The call `strings.ToLower(s)`, given the Unicode case table. -/
def ToLower (tbl : Char → Char) (s : String) : String :=
  String.mk (s.data.map (lowerRune tbl))

/-- Whether `substr` occurs in `s` starting at one of the positions of `s`. -/
def containsChars (substr : List Char) : List Char → Bool
  | [] => substr.isPrefixOf []
  | c :: s => substr.isPrefixOf (c :: s) || containsChars substr s

/-- The call `strings.Contains(s, substr)`. -/
def Contains (s substr : String) : Bool :=
  containsChars substr.data s.data

/-- The filter step of `listArtifacts` (main.go 89-98). -/
def filterByProject (tbl : Char → Char) (projectFilter : String)
    (artifacts : List Artifact) : List Artifact :=
  if projectFilter ≠ "" then
    artifacts.foldl
      (fun filtered artifact =>
        if Contains (ToLower tbl artifact.ProjectVersionName) (ToLower tbl projectFilter)
        then filtered ++ [artifact] else filtered)
      []
  else artifacts

/-! ## `config/config.go` -/

deriving instance DecidableEq for Except

/-- The Go struct `config.Config`. -/
structure Config where
  SSCUrl : String
  SSCToken : String
  deriving DecidableEq

/-- The call `strings.TrimRight(s, cutset)`. -/
def TrimRight (s : String) (cutset : String) : String :=
  String.mk (s.data.reverse.dropWhile (fun r => cutset.data.contains r)).reverse

/-- The function `LoadConfig` (config.go 16-41) on the values of
`FORTIFY_SSC_URL` and `FORTIFY_SSC_TOKEN` in the environment once the two
dotenv files were read. -/
def LoadConfig (envURL envToken : String) : Except Error Config :=
  let config : Config := { SSCUrl := envURL, SSCToken := envToken }
  if config.SSCUrl = "" then
    .error "FORTIFY_SSC_URL environment variable is not set"
  else if config.SSCToken = "" then
    .error "FORTIFY_SSC_TOKEN environment variable is not set"
  else
    .ok { config with SSCUrl := TrimRight config.SSCUrl "/" }

/-- The function `LoadConfigWithOverrides` (config.go 43-71). -/
def LoadConfigWithOverrides (envURL envToken urlOverride tokenOverride : String) :
    Except Error Config :=
  let config : Config := match LoadConfig envURL envToken with
    | .ok config => config
    | .error _ => { SSCUrl := "", SSCToken := "" }
  let config :=
    if urlOverride ≠ "" then { config with SSCUrl := TrimRight urlOverride "/" } else config
  let config :=
    if tokenOverride ≠ "" then { config with SSCToken := tokenOverride } else config
  if config.SSCUrl = "" then
    .error "SSC URL is required. Use --url flag or set FORTIFY_SSC_URL environment variable"
  else if config.SSCToken = "" then
    .error "SSC Token is required. Use --token flag or set FORTIFY_SSC_TOKEN environment variable"
  else
    .ok config

/-! ## Lemmas on the message normaliser -/

/-- The loop body of `extractMessages` only ever appends to `messages`. -/
theorem extractItem_append (messages : List String) (item : JValue) :
    extractItem messages item = messages ++ extractItem [] item := by
  cases item <;> simp only [extractItem] <;> (try split_ifs) <;> simp

/-- The loop of `extractMessages` appends the lines of the items to `messages`. -/
theorem foldl_extractItem (items : List JValue) (messages : List String) :
    items.foldl extractItem messages = messages ++ items.foldl extractItem [] := by
  induction items generalizing messages with
  | nil => simp
  | cons item rest ih =>
    rw [List.foldl_cons, ih, List.foldl_cons, ih (extractItem [] item),
      extractItem_append messages item, List.append_assoc]

/-- The lines contributed by a list of items, item by item. -/
theorem foldl_extractItem_flatMap (items : List JValue) :
    items.foldl extractItem [] = items.flatMap (extractItem []) := by
  induction items with
  | nil => rfl
  | cons item rest ih =>
    rw [List.foldl_cons, foldl_extractItem, ih, List.flatMap_cons]

/-- Concatenating a list of strings, one element at a time. -/
theorem join_cons (x : String) (xs : List String) :
    String.join (x :: xs) = x ++ String.join xs := by
  have hj : ∀ (ys : List String) (b : String),
      List.foldl (fun r s => r ++ s) b ys = b ++ List.foldl (fun r s => r ++ s) "" ys := by
    intro ys
    induction ys with
    | nil => intro b; simp
    | cons y ys ihy =>
      intro b
      rw [List.foldl_cons, ihy, List.foldl_cons, ihy ("" ++ y)]
      simp [String.append_assoc]
  simp only [String.join, List.foldl_cons]
  rw [hj]
  simp

/-- The worker of `String.intercalate` puts the separator before each further element. -/
theorem intercalate_go (sep : String) (rest : List String) (acc : String) :
    String.intercalate.go acc sep rest = acc ++ String.join (rest.map (fun l => sep ++ l)) := by
  induction rest generalizing acc with
  | nil => simp [String.intercalate.go, String.join]
  | cons l rest ih =>
    rw [String.intercalate.go, ih, List.map_cons, join_cons]
    simp [String.append_assoc]

/-- Joining a non-empty list: the first element, then each further element
preceded by one separator. -/
theorem Join_cons (first : String) (rest : List String) (sep : String) :
    Join (first :: rest) sep = first ++ String.join (rest.map (fun l => sep ++ l)) := by
  simp [Join, String.intercalate, intercalate_go]

/-- The accumulated lines of an artifact whose `Messages` is the list `items`. -/
theorem collectMessages_of_arr (a : Artifact) (items : List JValue)
    (hm : a.Messages = JValue.arr items) :
    collectMessages a =
      (if a.ProcessingMessages ≠ "" then [a.ProcessingMessages] else []) ++
        items.flatMap (extractItem []) := by
  simp only [collectMessages, hm]
  rw [foldl_extractItem, foldl_extractItem_flatMap]
  simp

/-! ## The message normaliser: main results -/

/-- C5, as stated, fails: an artifact whose `Messages` is absent but whose
`ProcessingMessages` is "p" is normalised to "p", not to the sentinel. -/
theorem extractMessages_sentinel_counterexample :
    ({ Artifact.zero with ProcessingMessages := "p" } : Artifact).Messages = JValue.null ∧
      extractMessages { Artifact.zero with ProcessingMessages := "p" } = "p" ∧
      extractMessages { Artifact.zero with ProcessingMessages := "p" } ≠
        "No processing messages available" :=
  ⟨rfl, by decide, by decide⟩

/-- C5, amended: for every artifact whose `ProcessingMessages` is empty and whose
`Messages` is absent or null, the empty string, or the empty list,
`extractMessages` returns exactly "No processing messages available". -/
theorem extractMessages_sentinel (a : Artifact) (hp : a.ProcessingMessages = "")
    (hm : a.Messages = JValue.null ∨ a.Messages = JValue.str "" ∨ a.Messages = JValue.arr []) :
    extractMessages a = "No processing messages available" := by
  have hc : collectMessages a = [] := by
    rcases hm with h | h | h <;> simp [collectMessages, h, hp]
  simp [extractMessages, hc]

/-- C5, amended, at an artifact with an empty list of messages. -/
theorem extractMessages_sentinel_witness :
    extractMessages { Artifact.zero with Messages := JValue.arr [] } =
      "No processing messages available" :=
  extractMessages_sentinel { Artifact.zero with Messages := JValue.arr [] } rfl
    (Or.inr (Or.inr rfl))

/-- C6: when `ProcessingMessages` is a non-empty string and `Messages` is a list
of objects, each with a non-empty string `message` and either no `code` key or a
non-empty string `code`, `extractMessages` returns the processing messages
followed, for each entry in list order, by one newline and the line of the entry:
"[code] message" with a code, the bare message without. -/
theorem extractMessages_structured (a : Artifact)
    (entries : List (List (String × JValue))) (lines : List (Option String × String))
    (hp : a.ProcessingMessages ≠ "")
    (hm : a.Messages = JValue.arr (entries.map JValue.obj))
    (hshape : List.Forall₂
      (fun e l => e.lookup "message" = some (JValue.str l.2) ∧ l.2 ≠ "" ∧
        match l.1 with
        | none => e.lookup "code" = none
        | some c => e.lookup "code" = some (JValue.str c) ∧ c ≠ "")
      entries lines) :
    extractMessages a =
      a.ProcessingMessages ++ String.join (lines.map fun l =>
        "\n" ++ match l.1 with
          | some c => "[" ++ c ++ "] " ++ l.2
          | none => l.2) := by
  have hitems : (entries.map JValue.obj).flatMap (extractItem []) =
      lines.map fun l => match l.1 with
        | some c => "[" ++ c ++ "] " ++ l.2
        | none => l.2 := by
    clear hm
    induction hshape with
    | nil => rfl
    | @cons e l es ls hel _ ih =>
      rw [List.map_cons, List.flatMap_cons, ih, List.map_cons]
      obtain ⟨hmsg, hne, hcode⟩ := hel
      rcases l with ⟨code, msg⟩
      cases code with
      | none =>
        simp only at hcode hmsg hne
        simp [extractItem, hmsg, hcode, fmtV, hne]
      | some c =>
        simp only at hcode hmsg hne
        simp [extractItem, hmsg, hcode.1, fmtV, hne, hcode.2]
  have hc := collectMessages_of_arr a _ hm
  rw [hitems, if_pos hp] at hc
  simp only [extractMessages, hc]
  rw [if_neg (by simp), List.singleton_append, Join_cons, List.map_map]
  rfl

/-- C6 at the input of the specification: messages
`[{code:"C1", message:"m1"}, {message:"m2"}]` and processing messages "p"
give exactly "p\n[C1] m1\nm2". -/
theorem extractMessages_structured_witness :
    extractMessages { Artifact.zero with
      ProcessingMessages := "p",
      Messages := JValue.arr [JValue.obj [("code", JValue.str "C1"), ("message", JValue.str "m1")],
        JValue.obj [("message", JValue.str "m2")]] } = "p\n[C1] m1\nm2" :=
  (extractMessages_structured
    { Artifact.zero with
      ProcessingMessages := "p",
      Messages := JValue.arr [JValue.obj [("code", JValue.str "C1"), ("message", JValue.str "m1")],
        JValue.obj [("message", JValue.str "m2")]] }
    [[("code", JValue.str "C1"), ("message", JValue.str "m1")], [("message", JValue.str "m2")]]
    [(some "C1", "m1"), (none, "m2")]
    (by decide) rfl
    (List.Forall₂.cons ⟨rfl, by decide, rfl, by decide⟩
      (List.Forall₂.cons ⟨rfl, by decide, rfl⟩ List.Forall₂.nil))).trans (by decide)

/-- C7: `extractMessages` returns a string for every artifact; when `Messages` is
a number, a boolean or an object the result is that of the same artifact with
`Messages` absent; and the elements of a `Messages` list that are not objects
contribute nothing: dropping them leaves the result unchanged. -/
theorem extractMessages_total (a : Artifact) :
    (∃ out : String, extractMessages a = out) ∧
    (∀ shown, extractMessages { a with Messages := JValue.num shown } =
      extractMessages { a with Messages := JValue.null }) ∧
    (∀ b, extractMessages { a with Messages := JValue.bool b } =
      extractMessages { a with Messages := JValue.null }) ∧
    (∀ fields, extractMessages { a with Messages := JValue.obj fields } =
      extractMessages { a with Messages := JValue.null }) ∧
    (∀ items, extractMessages { a with Messages := JValue.arr items } =
      extractMessages { a with Messages := JValue.arr (items.filter fun item =>
        match item with
        | JValue.obj _ => true
        | _ => false) }) := by
  refine ⟨⟨_, rfl⟩, fun _ => rfl, fun _ => rfl, fun _ => rfl, fun items => ?_⟩
  have hfilter : ∀ xs : List JValue,
      xs.flatMap (extractItem []) =
        (xs.filter fun item =>
          match item with
          | JValue.obj _ => true
          | _ => false).flatMap (extractItem []) := by
    intro xs
    induction xs with
    | nil => rfl
    | cons x xs ih =>
      cases x <;> simp [List.filter_cons, List.flatMap_cons, ih] <;> simp [extractItem]
  simp only [extractMessages]
  rw [collectMessages_of_arr _ items rfl, collectMessages_of_arr _ (items.filter _) rfl,
    ← hfilter]

/-- C8, as stated, fails: an entry with a `code` key whose value is the empty
string and with message "m" contributes the bare line "m", not "[] m". -/
theorem extractMessages_entry_counterexample :
    List.lookup "code" [("code", JValue.str ""), ("message", JValue.str "m")] =
        some (JValue.str "") ∧
      collectMessages { Artifact.zero with
        Messages := JValue.arr [JValue.obj [("code", JValue.str ""), ("message", JValue.str "m")]] }
        = ["m"] ∧
      collectMessages { Artifact.zero with
        Messages := JValue.arr [JValue.obj [("code", JValue.str ""), ("message", JValue.str "m")]] }
        ≠ ["[] m"] ∧
      extractMessages { Artifact.zero with
        Messages := JValue.arr [JValue.obj [("code", JValue.str ""), ("message", JValue.str "m")]] }
        = "m" :=
  ⟨rfl, by decide, by decide, by decide⟩

/-- C8, amended: for an entry `e` of a `Messages` list that is an object, with the
lines of the entries before it and after it left as they are: if `e` has a `code`
key and a `message` key whose values both have a non-empty string representation,
it contributes exactly the line "[code] message"; if its message has a non-empty
string representation and it has no `code` key, or a code whose string
representation is empty, it contributes exactly the bare message; if its message
is absent or has an empty string representation, it contributes no line. -/
theorem extractMessages_entry (a : Artifact) (before after : List JValue)
    (e : List (String × JValue)) :
    (∀ m c, e.lookup "message" = some m → fmtV m ≠ "" →
      e.lookup "code" = some c → fmtV c ≠ "" →
      collectMessages { a with Messages := JValue.arr (before ++ JValue.obj e :: after) } =
        collectMessages { a with Messages := JValue.arr before } ++
          ["[" ++ fmtV c ++ "] " ++ fmtV m] ++ after.foldl extractItem []) ∧
    (∀ m, e.lookup "message" = some m → fmtV m ≠ "" →
      (e.lookup "code" = none ∨ ∃ c, e.lookup "code" = some c ∧ fmtV c = "") →
      collectMessages { a with Messages := JValue.arr (before ++ JValue.obj e :: after) } =
        collectMessages { a with Messages := JValue.arr before } ++
          [fmtV m] ++ after.foldl extractItem []) ∧
    ((e.lookup "message" = none ∨ ∃ m, e.lookup "message" = some m ∧ fmtV m = "") →
      collectMessages { a with Messages := JValue.arr (before ++ JValue.obj e :: after) } =
        collectMessages { a with Messages := JValue.arr before } ++
          after.foldl extractItem []) := by
  have hsplit : ∀ line : List String, extractItem [] (JValue.obj e) = line →
      collectMessages { a with Messages := JValue.arr (before ++ JValue.obj e :: after) } =
        collectMessages { a with Messages := JValue.arr before } ++ line ++
          after.foldl extractItem [] := by
    intro line hline
    rw [collectMessages_of_arr _ (before ++ JValue.obj e :: after) rfl,
      collectMessages_of_arr _ before rfl, foldl_extractItem_flatMap, List.flatMap_append,
      List.flatMap_cons, hline]
    simp [List.append_assoc]
  refine ⟨fun m c hm hmne hc hcne => hsplit _ ?_, fun m hm hmne hc => hsplit _ ?_,
    fun hm => ?_⟩
  · simp [extractItem, hm, hc, hmne, hcne]
  · rcases hc with hc | ⟨c, hc, hce⟩
    · simp [extractItem, hm, hc, hmne]
    · simp [extractItem, hm, hc, hmne, hce]
  · have := hsplit [] (by
      rcases hm with hm | ⟨m, hm, hme⟩
      · simp [extractItem, hm]
      · simp [extractItem, hm, hme])
    simpa using this

/-- C8, amended, at the list `[{message:"m0"}, {code:"C1", message:"m1"}, 7]`:
the middle entry contributes "[C1] m1". -/
theorem extractMessages_entry_witness :
    collectMessages { Artifact.zero with
      Messages := JValue.arr ([JValue.obj [("message", JValue.str "m0")]] ++
        JValue.obj [("code", JValue.str "C1"), ("message", JValue.str "m1")] ::
          [JValue.num "7"]) } =
      collectMessages { Artifact.zero with
        Messages := JValue.arr [JValue.obj [("message", JValue.str "m0")]] } ++
        ["[" ++ fmtV (JValue.str "C1") ++ "] " ++ fmtV (JValue.str "m1")] ++
        [JValue.num "7"].foldl extractItem [] :=
  (extractMessages_entry Artifact.zero [JValue.obj [("message", JValue.str "m0")]]
    [JValue.num "7"] [("code", JValue.str "C1"), ("message", JValue.str "m1")]).1
    (JValue.str "m1") (JValue.str "C1") rfl (by decide) rfl (by decide)

/-! ## Lemmas on the aggregator -/

/-- The inner loop appends the pending artifacts of one version, labelled. -/
theorem foldl_scanArtifact (pv : ProjectVersion) (fetched acc : List Artifact) :
    fetched.foldl (scanArtifact pv) acc =
      acc ++ (fetched.filter fun a =>
          a.Status = "REQUIRE_AUTH" ∨ a.Status = "Requires Approval").map
        fun a => { a with
          ProjectVersionID := pv.ID,
          ProjectVersionName :=
            (match pv.Project with
              | some project => project.Name
              | none => "") ++ " - " ++ pv.Name } := by
  induction fetched generalizing acc with
  | nil => simp
  | cons a rest ih =>
    rw [List.foldl_cons, ih]
    by_cases h : a.Status = "REQUIRE_AUTH" ∨ a.Status = "Requires Approval"
    · simp [scanArtifact, h, List.filter_cons]
    · simp [scanArtifact, h, List.filter_cons]

/-- One turn of the outer loop adds the yield of the version and logs its request. -/
theorem scanVersion_eq (c : Remote) (st : List Artifact × List Request) (pv : ProjectVersion) :
    scanVersion c st pv = (st.1 ++ versionYield c pv, st.2 ++ [Request.artifacts pv.ID]) := by
  unfold scanVersion versionYield
  cases c.GetArtifacts pv.ID with
  | error e => simp
  | ok fetched => simp [foldl_scanArtifact]

/-- The outer loop adds the yield of every version in order and logs every request. -/
theorem foldl_scanVersion (c : Remote) (pvs : List ProjectVersion)
    (st : List Artifact × List Request) :
    pvs.foldl (scanVersion c) st =
      (st.1 ++ pvs.flatMap (versionYield c),
        st.2 ++ pvs.map fun pv => Request.artifacts pv.ID) := by
  induction pvs generalizing st with
  | nil => simp
  | cons pv rest ih =>
    rw [List.foldl_cons, ih, scanVersion_eq]
    simp [List.flatMap_cons, List.append_assoc]

/-- The outcome of the aggregator when the listing succeeds. -/
theorem GetAll_ok (pvs : List ProjectVersion)
    (getArtifacts : Int → Except Error (List Artifact)) :
    GetAllArtifactsRequiringApproval ⟨.ok pvs, getArtifacts⟩ =
      { artifacts := pvs.flatMap (versionYield ⟨.ok pvs, getArtifacts⟩),
        err := none,
        requests := Request.projectVersions :: pvs.map fun pv => Request.artifacts pv.ID } := by
  simp [GetAllArtifactsRequiringApproval, foldl_scanVersion]

/-! ## The aggregator: main results -/

/-- C1: when the version listing succeeds and every per-version fetch succeeds,
the result of `GetAllArtifactsRequiringApproval`, compared on every field other
than `ProjectVersionID` and `ProjectVersionName`, is the concatenation over the
versions in listing order of the fetched artifacts, in fetched order, whose
status is "REQUIRE_AUTH" or "Requires Approval". -/
theorem GetAll_exactly_pending (pvs : List ProjectVersion)
    (getArtifacts : Int → Except Error (List Artifact)) (fetched : Int → List Artifact)
    (hfetch : ∀ pv ∈ pvs, getArtifacts pv.ID = .ok (fetched pv.ID)) :
    ((GetAllArtifactsRequiringApproval ⟨.ok pvs, getArtifacts⟩).artifacts.map fun a =>
        { a with ProjectVersionID := 0, ProjectVersionName := "" }) =
      ((pvs.flatMap fun pv => (fetched pv.ID).filter fun a =>
          a.Status = "REQUIRE_AUTH" ∨ a.Status = "Requires Approval").map fun a =>
        { a with ProjectVersionID := 0, ProjectVersionName := "" }) := by
  rw [GetAll_ok]
  simp only
  induction pvs with
  | nil => rfl
  | cons pv rest ih =>
    have hrest : ∀ q ∈ rest, getArtifacts q.ID = .ok (fetched q.ID) :=
      fun q hq => hfetch q (List.mem_cons_of_mem _ hq)
    rw [List.flatMap_cons, List.flatMap_cons, List.map_append, List.map_append, ← ih hrest]
    congr 1
    simp [versionYield, hfetch pv (List.mem_cons_self _ _), List.map_map, Function.comp_def]

/-- C1 on the sample listing: of the three fetched artifacts the two pending ones
are returned, in listing order. -/
theorem GetAll_exactly_pending_witness :
    ((GetAllArtifactsRequiringApproval
        ⟨.ok sampleVersions, fun id => .ok (sampleFetched id)⟩).artifacts.map fun a =>
        { a with ProjectVersionID := 0, ProjectVersionName := "" }) =
      ((sampleVersions.flatMap fun pv => (sampleFetched pv.ID).filter fun a =>
          a.Status = "REQUIRE_AUTH" ∨ a.Status = "Requires Approval").map fun a =>
        { a with ProjectVersionID := 0, ProjectVersionName := "" }) :=
  GetAll_exactly_pending sampleVersions (fun id => .ok (sampleFetched id)) sampleFetched
    (fun _ _ => rfl)

/-- Versions whose fetch fails can be dropped from a listing without changing
what the versions yield together. -/
theorem flatMap_versionYield_filter (c : Remote) (pvs : List ProjectVersion) :
    pvs.flatMap (versionYield c) =
      (pvs.filter fun pv =>
        match c.GetArtifacts pv.ID with
        | .ok _ => true
        | .error _ => false).flatMap (versionYield c) := by
  induction pvs with
  | nil => rfl
  | cons pv rest ih =>
    rw [List.flatMap_cons, List.filter_cons, ih]
    cases h : c.GetArtifacts pv.ID with
    | error e => simp [versionYield, h]
    | ok fetched => simp [List.flatMap_cons]

/-- C2: for every version list and every per-version fetch outcome, the
artifacts returned by `GetAllArtifactsRequiringApproval` are those returned on
the list with every version whose fetch fails removed, no error is returned,
every version of the list is fetched in order, and a version whose fetch fails
can be taken out of the list without changing the result. -/
theorem GetAll_skips_failures (pvs : List ProjectVersion)
    (getArtifacts : Int → Except Error (List Artifact)) :
    (GetAllArtifactsRequiringApproval ⟨.ok pvs, getArtifacts⟩).artifacts =
      (GetAllArtifactsRequiringApproval
        ⟨.ok (pvs.filter fun pv =>
          match getArtifacts pv.ID with
          | .ok _ => true
          | .error _ => false), getArtifacts⟩).artifacts ∧
    (GetAllArtifactsRequiringApproval ⟨.ok pvs, getArtifacts⟩).err = none ∧
    (GetAllArtifactsRequiringApproval ⟨.ok pvs, getArtifacts⟩).requests =
      Request.projectVersions :: pvs.map (fun pv => Request.artifacts pv.ID) ∧
    (∀ before failing after e, pvs = before ++ failing :: after →
      getArtifacts failing.ID = .error e →
      (GetAllArtifactsRequiringApproval ⟨.ok pvs, getArtifacts⟩).artifacts =
        (GetAllArtifactsRequiringApproval ⟨.ok (before ++ after), getArtifacts⟩).artifacts) := by
  refine ⟨?_, ?_, ?_, ?_⟩
  · rw [GetAll_ok, GetAll_ok]
    simp only
    rw [flatMap_versionYield_filter]
    rfl
  · rw [GetAll_ok]
  · rw [GetAll_ok]
  · intro before failing after e hpvs hfail
    subst hpvs
    rw [GetAll_ok, GetAll_ok]
    simp only [List.flatMap_append, List.flatMap_cons]
    have hnone : versionYield ⟨.ok (before ++ failing :: after), getArtifacts⟩ failing = [] := by
      simp [versionYield, hfail]
    rw [hnone, List.nil_append]
    rfl

/-- C2 on the sample listing when the fetch of version 1 fails: the result is
that of the listing without version 1. -/
theorem GetAll_skips_failures_witness :
    (GetAllArtifactsRequiringApproval
      ⟨.ok ([] ++ { ID := 1, Name := "v1", Project := none, ProjectVersionName := "" } ::
          [{ ID := 2, Name := "v2", Project := none, ProjectVersionName := "" }]),
        fun id => if id = 1 then .error "status 404" else .ok (sampleFetched id)⟩).artifacts =
      (GetAllArtifactsRequiringApproval
        ⟨.ok ([] ++ [{ ID := 2, Name := "v2", Project := none, ProjectVersionName := "" }]),
          fun id => if id = 1 then .error "status 404" else .ok (sampleFetched id)⟩).artifacts :=
  (GetAll_skips_failures
    ([] ++ { ID := 1, Name := "v1", Project := none, ProjectVersionName := "" } ::
      [{ ID := 2, Name := "v2", Project := none, ProjectVersionName := "" }])
    (fun id => if id = 1 then .error "status 404" else .ok (sampleFetched id))).2.2.2
    [] { ID := 1, Name := "v1", Project := none, ProjectVersionName := "" }
    [{ ID := 2, Name := "v2", Project := none, ProjectVersionName := "" }] "status 404" rfl rfl

/-- C3: the result of `GetAllArtifactsRequiringApproval` consists, version by
version, of the pending artifacts fetched for the version `pv`, each with
`ProjectVersionID` set to `pv.ID` and `ProjectVersionName` set to the project
name (empty when the project is absent), then " - ", then `pv.Name`, whatever
these two fields held when decoded; so every returned artifact stems from a
fetched artifact of some version and carries the id and label of that version. -/
theorem GetAll_labels (pvs : List ProjectVersion)
    (getArtifacts : Int → Except Error (List Artifact)) :
    (GetAllArtifactsRequiringApproval ⟨.ok pvs, getArtifacts⟩).artifacts =
      (pvs.flatMap fun pv =>
        match getArtifacts pv.ID with
        | .error _ => []
        | .ok fetched =>
          (fetched.filter fun a =>
              a.Status = "REQUIRE_AUTH" ∨ a.Status = "Requires Approval").map
            fun a => { a with
              ProjectVersionID := pv.ID,
              ProjectVersionName :=
                (match pv.Project with
                  | some project => project.Name
                  | none => "") ++ " - " ++ pv.Name }) ∧
    (∀ r ∈ (GetAllArtifactsRequiringApproval ⟨.ok pvs, getArtifacts⟩).artifacts,
      ∃ pv ∈ pvs, ∃ fetched, getArtifacts pv.ID = .ok fetched ∧ ∃ a ∈ fetched,
        r = { a with ProjectVersionID := r.ProjectVersionID,
                     ProjectVersionName := r.ProjectVersionName } ∧
        r.ProjectVersionID = pv.ID ∧
        r.ProjectVersionName =
          (match pv.Project with
            | some project => project.Name
            | none => "") ++ " - " ++ pv.Name ∧
        (pv.Project = none → r.ProjectVersionName = " - " ++ pv.Name)) := by
  have heq := GetAll_ok pvs getArtifacts
  refine ⟨by rw [heq]; rfl, ?_⟩
  intro r hr
  rw [heq] at hr
  simp only [List.mem_flatMap] at hr
  obtain ⟨pv, hpv, hmem⟩ := hr
  refine ⟨pv, hpv, ?_⟩
  unfold versionYield at hmem
  simp only at hmem
  cases hget : getArtifacts pv.ID with
  | error e => rw [hget] at hmem; simp at hmem
  | ok fetched =>
    rw [hget] at hmem
    simp only [List.mem_map, List.mem_filter] at hmem
    obtain ⟨a, ⟨ha, _⟩, rfl⟩ := hmem
    refine ⟨fetched, rfl, a, ha, rfl, rfl, rfl, ?_⟩
    intro hnone
    simp [hnone]

/-- C3 on the sample listing: the pending artifact of version 1 is labelled
"Shop - v1" whatever label it was decoded with, and the pending artifact of
version 2, which has no project, is labelled " - v2" and gets the id 2. -/
theorem GetAll_labels_witness :
    (GetAllArtifactsRequiringApproval
        ⟨.ok sampleVersions, fun id => .ok (sampleFetched id)⟩).artifacts =
      [ { Artifact.zero with
            ID := 100, Status := "REQUIRE_AUTH",
            ProjectVersionID := 1, ProjectVersionName := "Shop - v1" },
        { Artifact.zero with
            ID := 200, Status := "Requires Approval",
            ProjectVersionID := 2, ProjectVersionName := " - v2" } ] :=
  (GetAll_labels sampleVersions (fun id => .ok (sampleFetched id))).1.trans (by rfl)

/-- C4: `GetAllArtifactsRequiringApproval` returns an error exactly when the
version listing fails. When the listing fails it returns that error, no
artifacts, and has made no per-version request; when the listing succeeds the
error is nil whatever the per-version outcomes, also when the result is empty. -/
theorem GetAll_error_iff (c : Remote) :
    ((GetAllArtifactsRequiringApproval c).err ≠ none ↔
      ∃ e, c.GetAllProjectVersions = .error e) ∧
    (∀ e getArtifacts,
      (GetAllArtifactsRequiringApproval ⟨.error e, getArtifacts⟩).err = some e ∧
      (GetAllArtifactsRequiringApproval ⟨.error e, getArtifacts⟩).artifacts = [] ∧
      (GetAllArtifactsRequiringApproval ⟨.error e, getArtifacts⟩).requests =
        [Request.projectVersions]) ∧
    (∀ pvs getArtifacts,
      (GetAllArtifactsRequiringApproval ⟨.ok pvs, getArtifacts⟩).err = none) ∧
    (∀ getArtifacts,
      (GetAllArtifactsRequiringApproval ⟨.ok [], getArtifacts⟩).artifacts = [] ∧
      (GetAllArtifactsRequiringApproval ⟨.ok [], getArtifacts⟩).err = none) := by
  refine ⟨?_, fun e g => ⟨rfl, rfl, rfl⟩, fun pvs g => by rw [GetAll_ok], fun g => ⟨rfl, rfl⟩⟩
  obtain ⟨listing, getArtifacts⟩ := c
  cases listing with
  | error e => simp [GetAllArtifactsRequiringApproval]
  | ok pvs => rw [GetAll_ok]; simp

/-! ## The project filter -/

/-- The search `containsChars` finds `substr` exactly when it is a contiguous
part of `s`. -/
theorem containsChars_iff (substr s : List Char) :
    containsChars substr s = true ↔ substr <:+: s := by
  induction s with
  | nil =>
    cases substr <;> simp [containsChars, List.isPrefixOf]
  | cons c s ih =>
    rw [containsChars, Bool.or_eq_true, ih, List.isPrefixOf_iff_prefix, List.infix_cons_iff]

/-- The filter loop keeps the artifacts that pass the test, in order. -/
theorem foldl_keep (keep : Artifact → Bool) (artifacts filtered : List Artifact) :
    artifacts.foldl
        (fun filtered artifact => if keep artifact then filtered ++ [artifact] else filtered)
        filtered =
      filtered ++ artifacts.filter keep := by
  induction artifacts generalizing filtered with
  | nil => simp
  | cons a rest ih =>
    rw [List.foldl_cons, ih]
    cases h : keep a <;> simp [List.filter_cons, h]

/-- C9: with a non-empty project filter the filter step of `listArtifacts` keeps
exactly the artifacts whose `ProjectVersionName`, lower-cased, contains the
lower-cased filter as a contiguous substring, in their original order; with an
empty filter the list is unchanged. -/
theorem filterByProject_spec (tbl : Char → Char) (projectFilter : String)
    (artifacts : List Artifact) :
    (projectFilter ≠ "" →
      filterByProject tbl projectFilter artifacts =
        artifacts.filter fun a =>
          decide ((ToLower tbl projectFilter).data <:+:
            (ToLower tbl a.ProjectVersionName).data)) ∧
    filterByProject tbl "" artifacts = artifacts := by
  refine ⟨fun hne => ?_, by simp [filterByProject]⟩
  simp only [filterByProject, if_pos hne]
  rw [foldl_keep, List.nil_append]
  congr 1
  funext a
  simp only [Contains]
  rw [Bool.eq_iff_iff, containsChars_iff]
  simp

/-- C9 at the input of the specification: the filter "proj" keeps the artifact
labelled "MyProject - v1" and drops one labelled "Other - v2". -/
theorem filterByProject_spec_witness :
    filterByProject (fun r => r) "proj"
        [ { Artifact.zero with ID := 1, ProjectVersionName := "MyProject - v1" },
          { Artifact.zero with ID := 2, ProjectVersionName := "Other - v2" } ] =
      [ { Artifact.zero with ID := 1, ProjectVersionName := "MyProject - v1" } ] :=
  ((filterByProject_spec (fun r => r) "proj"
      [ { Artifact.zero with ID := 1, ProjectVersionName := "MyProject - v1" },
        { Artifact.zero with ID := 2, ProjectVersionName := "Other - v2" } ]).1
    (by decide)).trans (by rfl)

/-! ## Configuration -/

/-- What `LoadConfigWithOverrides` computes: the values of the environment are
used only when both of them are set; otherwise both start out empty and only the
overrides count. -/
theorem LoadConfigWithOverrides_eq (envURL envToken urlOverride tokenOverride : String) :
    LoadConfigWithOverrides envURL envToken urlOverride tokenOverride =
      (let url :=
        if urlOverride ≠ "" then TrimRight urlOverride "/"
        else if envURL ≠ "" ∧ envToken ≠ "" then TrimRight envURL "/" else ""
      let token :=
        if tokenOverride ≠ "" then tokenOverride
        else if envURL ≠ "" ∧ envToken ≠ "" then envToken else ""
      if url = "" then
        .error "SSC URL is required. Use --url flag or set FORTIFY_SSC_URL environment variable"
      else if token = "" then
        .error "SSC Token is required. Use --token flag or set FORTIFY_SSC_TOKEN environment variable"
      else .ok { SSCUrl := url, SSCToken := token }) := by
  unfold LoadConfigWithOverrides LoadConfig
  by_cases h1 : envURL = "" <;> by_cases h2 : envToken = "" <;>
    by_cases h3 : urlOverride = "" <;> by_cases h4 : tokenOverride = "" <;>
    simp [h1, h2, h3, h4]

/-- C10 fails on the code: with `FORTIFY_SSC_URL` set in the environment, the
token given only by the flag and no URL flag, both effective values are
non-empty, yet `LoadConfigWithOverrides` reports that the URL is missing; and
with the token set in the environment and the URL given only by the flag it
reports that the token is missing. -/
theorem LoadConfigWithOverrides_partial_env :
    TrimRight "https://ssc.example.com/" "/" = "https://ssc.example.com" ∧
    LoadConfigWithOverrides "https://ssc.example.com/" "" "" "tok" =
      .error "SSC URL is required. Use --url flag or set FORTIFY_SSC_URL environment variable" ∧
    LoadConfigWithOverrides "" "tok" "https://ssc.example.com/" "" =
      .error "SSC Token is required. Use --token flag or set FORTIFY_SSC_TOKEN environment variable" ∧
    LoadConfigWithOverrides "https://ssc.example.com/" "tok" "" "" =
      .ok { SSCUrl := "https://ssc.example.com", SSCToken := "tok" } := by
  decide

end SSC
